import Mathlib

/-!
Verification of the reactive dependency-tracking engine of
LouisGo/vue-design-and-implement against its specification.

The TypeScript sources are shallowly embedded: the global mutable state
(the `effectsBuckets` WeakMap, `activeEffect`, `effectStack`, each effect's
`deps` back-reference array and run bookkeeping) becomes an explicit state
record, and the functions `effect`, `cleanup`, `track`, `trigger` and the
proxy traps become state-passing Lean functions.  User-supplied effect
functions are embedded as a small syntax of read/conditional-read/nested
registrations, interpreted against the state; JavaScript `Set` objects are
modelled as insertion-ordered duplicate-free lists and `Map` objects as
association lists.
-/

/-- JavaScript values, as far as the proxy layer inspects them: the set trap
of `createReactive` (src/unnamed/part_000, lines 142-171) compares the old
and the new value with `===` and has a dedicated NaN case, so the model
keeps NaN as a distinguished value. -/
inductive JSV where
  | undef
  | vnan
  | num (n : Int)
  | str (s : String)
  | bool (b : Bool)
  | obj (id : Nat)
deriving DecidableEq

/-- Is the value NaN? -/
def JSV.isNaNv : JSV → Bool
  | .vnan => true
  | _ => false

/-- JavaScript strict equality `===`: structural equality on our value
universe except that NaN is not `===` to anything, itself included. -/
def JSV.sEq (a b : JSV) : Bool :=
  if a.isNaNv || b.isNaNv then false else decide (a = b)

/-- The value-change guard of the set trap, verbatim from
`oldValue !== newVal && (oldValue === oldValue || newVal === newVal)`
(src/unnamed/part_000, lines 162-165). -/
def JSV.valueChanged (oldV newV : JSV) : Bool :=
  (!JSV.sEq oldV newV) && (JSV.sEq oldV oldV || JSV.sEq newV newV)

/-- Equality "with two NaN values counting as equal" (the spec's reading of
the guard): strict equality except that NaN equals NaN. -/
def JSV.eqNaN (a b : JSV) : Bool :=
  JSV.sEq a b || (a.isNaNv && b.isNaNv)

namespace EffA

/-!
Model A: the effect runtime of src/2.reactivity-system/3.branch-and-cleanup.ts
(`effect` lines 147-172, `cleanup` lines 174-182, `track`, `trigger`) and of
the identical runtime in src/unnamed/part_002 (lines 63-90).  The target is a
single plain object behind the simple proxy (get -> track, set -> assign then
trigger); property keys are strings.  Effect bodies only read (possibly
conditionally) and may register nested effects; writes are performed at top
level, as in the demos.
-/

/-- An embedded effect body: straight-line reads, a conditional read
(`cond ? a : b`, which reads `cond` and then one branch), and registration
plus immediate run of a nested effect. -/
inductive Body where
  | done
  | read (k : String) (rest : Body)
  | readIf (c : String) (a b : String) (rest : Body)
  | nest (inner : Body) (rest : Body)
deriving DecidableEq

/-- JavaScript truthiness for the conditional read. -/
def truthy : JSV → Bool
  | .undef => false
  | .vnan => false
  | .num n => decide (n ≠ 0)
  | .str s => decide (s ≠ "")
  | .bool b => b
  | .obj _ => true

/-- The global state of the runtime: the target object's data, the
dependency store (`effectsBuckets` restricted to the single target: key ->
ordered duplicate-free list of effect ids, modelling a JS `Set`), each
effect's `deps` back-reference list (a set in the bucket is identified by
its key), the registry of effect bodies, a fresh-id counter, `activeEffect`,
`effectStack`, and an observational run counter per effect. -/
structure St where
  data : String → JSV
  bucket : String → List Nat
  deps : Nat → List String
  registry : Nat → Option Body
  nextId : Nat
  active : Option Nat
  stack : List Nat
  runCount : Nat → Nat

/-- `track(target, key)`: if there is an active effect, add it to the
dependency set for the key (JS `Set.add`: append only when absent) and push
that set onto the effect's `deps` array (unconditional `push`). -/
def track (s : St) (k : String) : St :=
  match s.active with
  | none => s
  | some e =>
    let set := s.bucket k
    let set2 := if e ∈ set then set else set ++ [e]
    { s with
      bucket := fun k2 => if k2 = k then set2 else s.bucket k2
      deps := fun e2 => if e2 = e then s.deps e ++ [k] else s.deps e2 }

/-- One step of `cleanup`'s loop: `deps.delete(effectFn)` on the set for
key `k`. -/
def delFrom (bucket : String → List Nat) (k : String) (e : Nat) :
    String → List Nat :=
  fun k2 => if k2 = k then (bucket k).filter (fun x => x ≠ e) else bucket k2

/-- `cleanup(effectFn)`: delete the effect from every dependency set in its
`deps` array, then reset the array to length 0. -/
def cleanup (e : Nat) (s : St) : St :=
  let b := (s.deps e).foldl (fun bk k => delFrom bk k e) s.bucket
  { s with
    bucket := b
    deps := fun e2 => if e2 = e then [] else s.deps e2 }

/-- The tail of the `effectFn` wrapper: `effectStack.pop()` followed by
`activeEffect = effectStack[effectStack.length - 1]` (which is `undefined`,
i.e. none, on an empty stack). -/
def popRestore (s : St) : St :=
  let s2 := { s with stack := s.stack.dropLast }
  { s2 with active := s2.stack.getLast? }

/-- The head of the `effectFn` wrapper: cleanup, set `activeEffect` to the
effect, push it onto `effectStack`, and count the run. -/
def beginRun (s : St) (e : Nat) : St :=
  let s1 := cleanup e s
  { s1 with
    active := some e
    stack := s1.stack ++ [e]
    runCount := fun e2 => if e2 = e then s1.runCount e + 1 else s1.runCount e2 }

/-- Registration of a nested effect: allocate a fresh id and record the
body in the registry (the allocation half of `effect(fn)`). -/
def allocNested (s : St) (inner : Body) : St :=
  { s with
    nextId := s.nextId + 1
    registry := fun e2 => if e2 = s.nextId then some inner else s.registry e2 }

/-- Interpret an effect body.  The `nest` case performs, inline, exactly
what `effect(fn)` does for the nested function: allocate the effect,
then run its `effectFn` wrapper (cleanup, set `activeEffect`, push onto
`effectStack`, run the body, pop and restore). -/
def runBody (s : St) (b : Body) : St :=
  match b with
  | .done => s
  | .read k rest => runBody (track s k) rest
  | .readIf c a b2 rest =>
    let s1 := track s c
    let s2 := if truthy (s1.data c) then track s1 a else track s1 b2
    runBody s2 rest
  | .nest inner rest =>
    runBody (popRestore (runBody (beginRun (allocNested s inner) s.nextId) inner)) rest

/-- The `effectFn` wrapper for an already-registered effect: cleanup, set
`activeEffect`, push, run the user function, pop, restore. -/
def runEffectOn (s : St) (e : Nat) (b : Body) : St :=
  popRestore (runBody (beginRun s e) b)

/-- `effect(fn)` at top level: allocate the effect and run it immediately
(the non-lazy path).  Returns the new state and the effect's id. -/
def effectReg (s : St) (b : Body) : St × Nat :=
  let e := s.nextId
  let s0 := { s with
    nextId := s.nextId + 1
    registry := fun e2 => if e2 = e then some b else s.registry e2 }
  (runEffectOn s0 e b, e)

/-- The `effectsToRun` set assembled by `trigger`: the subscribers of the
key, excluding the currently active effect (`if (fn !== activeEffect)`).
The bucket list is duplicate-free, so the JS `Set` insertion is a filter. -/
def assembleA (s : St) (k : String) : List Nat :=
  (s.bucket k).filter (fun f => some f ≠ s.active)

/-- Run each assembled effect in order (the `forEach` over the new `Set`);
effects without a registered body are skipped. -/
def runList (s : St) (l : List Nat) : St :=
  match l with
  | [] => s
  | e :: rest =>
    match s.registry e with
    | some b => runList (runEffectOn s e b) rest
    | none => runList s rest

/-- `trigger(target, key)`: assemble the run set from the current bucket,
then deliver. -/
def triggerA (s : St) (k : String) : St := runList s (assembleA s k)

/-- The proxy set trap of the simple object proxy: assign, then trigger. -/
def writeKey (s : St) (k : String) (v : JSV) : St :=
  triggerA
    { s with data := fun k2 => if k2 = k then v else s.data k2 } k

/-- The keys a body reads in a given data environment, in read order;
reads performed by nested effects belong to the nested effect, not to the
enclosing one. -/
def readsOf : Body → (String → JSV) → List String
  | .done, _ => []
  | .read k rest, d => k :: readsOf rest d
  | .readIf c a b rest, d => c :: (if truthy (d c) then a else b) :: readsOf rest d
  | .nest _ rest, d => readsOf rest d

/-- A fresh runtime state over a given data object: empty dependency store,
no registered effects, empty stack, no active effect. -/
def initSt (d : String → JSV) : St :=
  { data := d
    bucket := fun _ => []
    deps := fun _ => []
    registry := fun _ => none
    nextId := 0
    active := none
    stack := []
    runCount := fun _ => 0 }

/-- Data for the branch-pruning demo: `cond` is initially true (the demo's
`ok` flag), every other key holds a number. -/
def dataC1 : String → JSV := fun k => if k = "cond" then .bool true else .num 0

/-- The branch-pruning effect body: `cond ? a : b`. -/
def bodyC1 : Body := .readIf "cond" "a" "b" .done

/-- The state used to discharge the general theorem's hypotheses at a
concrete input: the fresh state with effect 0 allocated. -/
def sC1pre : St := allocNested (initSt dataC1) bodyC1

/-- Register (and immediately run) the branch-pruning computation. -/
def sC1reg : St := (effectReg (initSt dataC1) bodyC1).1

/-- ... then write `b`, which the last run did not read. -/
def sC1afterB : St := writeKey sC1reg "b" (.num 9)

/-- ... then write `a`, which the last run did read. -/
def sC1afterA : St := writeKey sC1afterB "a" (.num 7)

/-- Data for the nested-effect demo. -/
def dataC3 : String → JSV := fun _ => .num 1

/-- Outer computation X: register-and-run nested computation Y (which reads
`bar`), then read `foo`. -/
def sXY : St := (effectReg (initSt dataC3) (.nest (.read "bar" .done) (.read "foo" .done))).1

/-- ... then write `bar`, read only by Y. -/
def sXYbar : St := writeKey sXY "bar" (.num 9)

/-- ... then write `foo`, read only by X. -/
def sXYfoo : St := writeKey sXY "foo" (.num 9)

end EffA

namespace EffB

/-!
Model B: the array-aware runtime of src/unnamed/part_004 — the same effect
runtime as Model A, but with part_004's full `trigger` (lines 255-327):
self-trigger filtering, the length-subscribers block for array ADDs, the
truncated-index block for `length` writes, and the ITERATE_KEY block for
ADD/DELETE — together with part_004's proxy set trap (lines 194-229) over a
single reactive target.  Because effect bodies may write (and so re-enter
`trigger`), the interpreter is fuel-indexed.
-/

/-- Property keys of the array-aware runtime: array index keys (numeric
strings, kept as numbers), the `length` key, the ITERATE_KEY symbol and
other, non-numeric string property names. -/
inductive KeyB where
  | idx (n : Nat)
  | len
  | iter
  | str (s : String)
deriving DecidableEq

/-- The `TriggerType` enum of part_004. -/
inductive TType where
  | add
  | set
  | del
deriving DecidableEq

/-- The JS comparison `key >= newVal` that `trigger` performs on the keys of
the target's depsMap when `length` is written: an index key coerces to its
number; `'length'` and non-numeric property names coerce to NaN, and
`NaN >= v` is false.  (`KeyB.str` holds only non-numeric names — numeric
strings are `KeyB.idx` — and ITERATE_KEY never enters an array target's
depsMap because `ownKeys` tracks `length` for arrays.) -/
def keyGe (k : KeyB) (v : Int) : Bool :=
  match k with
  | .idx n => decide (v ≤ (n : Int))
  | _ => false

/-- Effect bodies: read a key, write an integer through the proxy set trap,
or increment (`obj.count++`: a tracked read followed by a write of
old + 1). -/
inductive BodyB where
  | done
  | read (k : KeyB) (rest : BodyB)
  | write (k : KeyB) (v : Int) (rest : BodyB)
  | incr (k : KeyB) (rest : BodyB)
deriving DecidableEq

/-- State of the array-aware runtime over one reactive target, which is
either an array (`isArray`, with `len` its length) or a plain object.
`data` holds the own integer-valued properties (`none` = absent); `dm` is
the target's depsMap, an insertion-ordered association list mirroring the
JS `Map` (keys unique). -/
structure StB where
  isArray : Bool
  data : KeyB → Option Int
  len : Nat
  dm : List (KeyB × List Nat)
  deps : Nat → List KeyB
  registry : Nat → Option BodyB
  active : Option Nat
  stack : List Nat
  runCount : Nat → Nat

/-- `depsMap.get(key)` (absent key = no subscribers). -/
def lookupDm (dm : List (KeyB × List Nat)) (k : KeyB) : List Nat :=
  match dm.find? (fun p => decide (p.1 = k)) with
  | some p => p.2
  | none => []

/-- JS `Set.add`: append only when absent. -/
def setAddB (l : List Nat) (e : Nat) : List Nat := if e ∈ l then l else l ++ [e]

/-- `depsMap.set(key, deps.add(effect))`: update the entry in place, or
append a fresh singleton entry. -/
def dmAdd (dm : List (KeyB × List Nat)) (k : KeyB) (e : Nat) : List (KeyB × List Nat) :=
  match dm with
  | [] => [(k, [e])]
  | p :: rest => if p.1 = k then (p.1, setAddB p.2 e) :: rest else p :: dmAdd rest k e

/-- `deps.delete(effect)` on the set stored under key `k`. -/
def dmDelete (dm : List (KeyB × List Nat)) (k : KeyB) (e : Nat) : List (KeyB × List Nat) :=
  dm.map (fun p => if p.1 = k then (p.1, p.2.filter (fun x => x ≠ e)) else p)

/-- `track(target, key)` of part_004 (with `shouldTrack` true: the modelled
scenarios call no overridden mutating array method). -/
def trackB (s : StB) (k : KeyB) : StB :=
  match s.active with
  | none => s
  | some e =>
    { s with
      dm := dmAdd s.dm k e
      deps := fun e2 => if e2 = e then s.deps e ++ [k] else s.deps e2 }

/-- `cleanup(effectFn)` of part_004. -/
def cleanupB (e : Nat) (s : StB) : StB :=
  { s with
    dm := (s.deps e).foldl (fun d k => dmDelete d k e) s.dm
    deps := fun e2 => if e2 = e then [] else s.deps e2 }

/-- One `effectsToRun.add(fn)` guarded by `fn !== activeEffect`. -/
def addRun (active : Option Nat) (acc : List Nat) (f : Nat) : List Nat :=
  if some f = active then acc else if f ∈ acc then acc else acc ++ [f]

/-- A guarded `forEach` block of `trigger`: add every subscriber except the
active effect. -/
def addRuns (active : Option Nat) (acc : List Nat) (fs : List Nat) : List Nat :=
  fs.foldl (addRun active) acc

/-- The `effectsToRun` set assembled by part_004's `trigger` (lines
265-318): the direct subscribers of the key; plus, for an array ADD, the
subscribers of `length`; plus, when `length` itself is written, the
subscribers of every depsMap key `>= newVal`; plus, for ADD or DELETE, the
subscribers of ITERATE_KEY — each block excluding the active effect. -/
def assembleB (dm : List (KeyB × List Nat)) (isArray : Bool) (k : KeyB) (t : TType)
    (newVal : Int) (active : Option Nat) : List Nat :=
  let r1 := addRuns active [] (lookupDm dm k)
  let r2 := if isArray && decide (t = TType.add) then addRuns active r1 (lookupDm dm .len)
    else r1
  let r3 := if isArray && decide (k = KeyB.len) then
      dm.foldl (fun acc p => if keyGe p.1 newVal then addRuns active acc p.2 else acc) r2
    else r2
  if decide (t = TType.add) || decide (t = TType.del) then addRuns active r3 (lookupDm dm .iter)
  else r3

/-- `target[key]` on the raw target: the `length` of an array, or the own
property (absent = undefined, which no integer equals). -/
def oldValOf (s : StB) (k : KeyB) : Option Int :=
  if s.isArray && decide (k = KeyB.len) then some (Int.ofNat s.len) else s.data k

/-- The ADD/SET classification of the part_004 set trap: for arrays,
`Number(key) < target.length` (NaN — i.e. a non-index key — compares
false, so `length` writes and name writes classify as ADD); for plain
objects, `hasOwnProperty`. -/
def ttypeOf (s : StB) (k : KeyB) : TType :=
  if s.isArray then
    match k with
    | .idx n => if n < s.len then .set else .add
    | _ => .add
  else
    if (s.data k).isSome then .set else .add

/-- `Reflect.set` on the raw target: write the property; an index write may
grow an array's length, and a `length` write truncates the indices at or
beyond the new length. -/
def doWriteB (s : StB) (k : KeyB) (v : Int) : StB :=
  if s.isArray then
    match k with
    | .idx n =>
      { s with
        data := fun k2 => if k2 = k then some v else s.data k2
        len := max s.len (n + 1) }
    | .len =>
      { s with
        len := v.toNat
        data := fun k2 => match k2 with
          | .idx m => if (m : Int) < v then s.data (.idx m) else none
          | k3 => s.data k3 }
    | _ => { s with data := fun k2 => if k2 = k then some v else s.data k2 }
  else
    { s with data := fun k2 => if k2 = k then some v else s.data k2 }

mutual

/-- The `effectFn` wrapper, fuel-indexed: cleanup, set `activeEffect`,
push, run the body, pop, restore. -/
def runEffB (fuel : Nat) (s : StB) (e : Nat) : StB :=
  match fuel with
  | 0 => s
  | f + 1 =>
    match s.registry e with
    | none => s
    | some b =>
      let s1 := cleanupB e s
      let s2 := { s1 with
        active := some e
        stack := s1.stack ++ [e]
        runCount := fun e2 => if e2 = e then s1.runCount e + 1 else s1.runCount e2 }
      let s3 := runBodyB f s2 b
      let s4 := { s3 with stack := s3.stack.dropLast }
      { s4 with active := s4.stack.getLast? }

/-- Interpret an effect body (reads track, writes go through the set
trap). -/
def runBodyB (fuel : Nat) (s : StB) (b : BodyB) : StB :=
  match fuel with
  | 0 => s
  | f + 1 =>
    match b with
    | .done => s
    | .read k rest => runBodyB f (trackB s k) rest
    | .write k v rest => runBodyB f (setTrapB f s k v) rest
    | .incr k rest =>
      let s1 := trackB s k
      let old := (oldValOf s1 k).getD 0
      runBodyB f (setTrapB f s1 k (old + 1)) rest

/-- The part_004 set trap for a mutable proxy used directly over its own
target (so `target === receiver[RAW_KEY]` holds): read the old value,
classify ADD/SET, perform the write, and trigger only when the value
changed (integer values cannot be NaN, so the NaN clause of the guard is
identically true). -/
def setTrapB (fuel : Nat) (s : StB) (k : KeyB) (v : Int) : StB :=
  match fuel with
  | 0 => s
  | f + 1 =>
    let oldV := oldValOf s k
    let t := ttypeOf s k
    let s1 := doWriteB s k v
    if oldV ≠ some v then triggerB f s1 k t v else s1

/-- `trigger(target, key, type, newVal)`: assemble the run set, then
deliver (the modelled effects carry no scheduler, so each is invoked
directly). -/
def triggerB (fuel : Nat) (s : StB) (k : KeyB) (t : TType) (v : Int) : StB :=
  match fuel with
  | 0 => s
  | f + 1 => runListB f s (assembleB s.dm s.isArray k t v s.active)

/-- Deliver to each assembled effect in order. -/
def runListB (fuel : Nat) (s : StB) (l : List Nat) : StB :=
  match fuel with
  | 0 => s
  | f + 1 =>
    match l with
    | [] => s
    | e :: rest => runListB f (runEffB f s e) rest

end

/-- Register an effect body under an explicit id and run it immediately
(the non-lazy `effect(fn)`). -/
def effectRegB (fuel : Nat) (s : StB) (e : Nat) (b : BodyB) : StB :=
  runEffB fuel
    { s with registry := fun e2 => if e2 = e then some b else s.registry e2 } e

/-- A top-level write through the proxy (no active effect at top level in
the scenarios). -/
def extWriteB (fuel : Nat) (s : StB) (k : KeyB) (v : Int) : StB := setTrapB fuel s k v

/-- The plain object `{ count: 1 }` with no registered effects. -/
def stC2 : StB :=
  { isArray := false
    data := fun k => if k = KeyB.str "count" then some 1 else none
    len := 0
    dm := []
    deps := fun _ => []
    registry := fun _ => none
    active := none
    stack := []
    runCount := fun _ => 0 }

/-- Register effect 0 performing `obj.count++` — it reads and writes the
same key during its own execution. -/
def sC2reg : StB := effectRegB 12 stC2 0 (.incr (.str "count") .done)

/-- ... then one external write to `count`. -/
def sC2w : StB := extWriteB 12 sC2reg (.str "count") 10

/-- The same scenario run with far more fuel (the run counts agree, showing
the recursion has terminated rather than exhausted the fuel). -/
def sC2wBig : StB := extWriteB 40 (effectRegB 40 stC2 0 (.incr (.str "count") .done)) (.str "count") 10

/-- The reactive array `[1, 2, 3]` with no registered effects. -/
def stC5 : StB :=
  { isArray := true
    data := fun k => match k with
      | .idx 0 => some 1
      | .idx 1 => some 2
      | .idx 2 => some 3
      | _ => none
    len := 3
    dm := []
    deps := fun _ => []
    registry := fun _ => none
    active := none
    stack := []
    runCount := fun _ => 0 }

/-- Register effect 0 reading index 2. -/
def sC5reg : StB := effectRegB 12 stC5 0 (.read (.idx 2) .done)

/-- ... then set `length` to 1, truncating index 2 away. -/
def sC5len : StB := extWriteB 12 sC5reg .len 1

/-- ... then write index 0 alone. -/
def sC5idx0 : StB := extWriteB 12 sC5len (.idx 0) 5

end EffB

namespace Proto

/-!
Model of the prototype-chain setup of src/unnamed/part_000 (createReactive
with the RAW_KEY channel, lines 114-172, and the demo of lines 257-291):
`proxyChild` wraps the raw child object, whose prototype is `proxyParent`,
wrapping the raw parent.  A write through the child runs the child's set
trap; when the child has no own property, the host's `[[Set]]` walks to the
prototype and runs the parent proxy's set trap with the same receiver, and
the found data property makes `Reflect.set` define the property on the
receiver's raw object (the raw child).  Each trap's guard compares its own
`target` with `receiver[RAW_KEY]`, which is always the raw child.
-/

/-- The two reactive targets of the chain. -/
inductive Tgt where
  | child
  | parent
deriving DecidableEq

/-- The trigger classification of part_000. -/
inductive TTy where
  | add
  | set
  | del
deriving DecidableEq

/-- State: the two raw objects' own properties, the dependency store keyed
by (target, key), the ITERATE_KEY subscribers per target, each effect's
back-references, the registry of effect bodies (lists of keys read through
the child proxy), `activeEffect`, `effectStack`, a run counter, and an
observational log of the `trigger` calls that were delivered. -/
structure StP where
  childData : String → Option JSV
  parentData : String → Option JSV
  bucket : Tgt → String → List Nat
  iterBucket : Tgt → List Nat
  deps : Nat → List (Tgt × String)
  registry : Nat → Option (List String)
  active : Option Nat
  stack : List Nat
  runCount : Nat → Nat
  triggerLog : List (Tgt × String)

/-- `track(target, key)`. -/
def trackP (s : StP) (t : Tgt) (k : String) : StP :=
  match s.active with
  | none => s
  | some e =>
    let set := s.bucket t k
    let set2 := if e ∈ set then set else set ++ [e]
    { s with
      bucket := fun t2 k2 => if t2 = t ∧ k2 = k then set2 else s.bucket t2 k2
      deps := fun e2 => if e2 = e then s.deps e ++ [(t, k)] else s.deps e2 }

/-- `cleanup(effectFn)`. -/
def cleanupP (e : Nat) (s : StP) : StP :=
  { s with
    bucket := (s.deps e).foldl
      (fun bk tk => fun t2 k2 =>
        if t2 = tk.1 ∧ k2 = tk.2 then (bk tk.1 tk.2).filter (fun x => x ≠ e) else bk t2 k2)
      s.bucket
    deps := fun e2 => if e2 = e then [] else s.deps e2 }

/-- A read of `proxyChild[key]` inside an effect: the child trap tracks
(child, key); `Reflect.get(rawChild, key, proxyChild)` finds an own
property, or else continues on the prototype — the parent proxy — whose get
trap tracks (parent, key) and reads the parent's property. -/
def getChild (s : StP) (k : String) : JSV × StP :=
  let s1 := trackP s .child k
  match s1.childData k with
  | some v => (v, s1)
  | none =>
    let s2 := trackP s1 .parent k
    ((s2.parentData k).getD JSV.undef, s2)

/-- The `effectsToRun` set of part_000's `trigger`: direct subscribers of
(target, key) plus — for ADD or DELETE — the ITERATE_KEY subscribers, all
excluding the active effect. -/
def assembleP (s : StP) (t : Tgt) (k : String) (ty : TTy) : List Nat :=
  let r1 := (s.bucket t k).filter (fun f => some f ≠ s.active)
  if ty = TTy.add ∨ ty = TTy.del then
    (s.iterBucket t).foldl
      (fun acc f => if some f = s.active then acc else if f ∈ acc then acc else acc ++ [f]) r1
  else r1

/-- The `effectFn` wrapper: cleanup, set active, push, read the body's keys
through the child proxy, pop, restore. -/
def runEffP (s : StP) (e : Nat) : StP :=
  match s.registry e with
  | none => s
  | some keys =>
    let s1 := cleanupP e s
    let s2 := { s1 with
      active := some e
      stack := s1.stack ++ [e]
      runCount := fun e2 => if e2 = e then s1.runCount e + 1 else s1.runCount e2 }
    let s3 := keys.foldl (fun st k => (getChild st k).2) s2
    let s4 := { s3 with stack := s3.stack.dropLast }
    { s4 with active := s4.stack.getLast? }

/-- `trigger(target, key, type)`: log the delivery, assemble, run. -/
def triggerP (s : StP) (t : Tgt) (k : String) (ty : TTy) : StP :=
  let s1 := { s with triggerLog := s.triggerLog ++ [(t, k)] }
  (assembleP s1 t k ty).foldl (fun st e => runEffP st e) s1

/-- `target[key]` where target is the raw child: an own property, or the
prototype walk through the parent proxy's get trap (which tracks
(parent, key) under the current active effect). -/
def rawChildGet (s : StP) (k : String) : JSV × StP :=
  match s.childData k with
  | some v => (v, s)
  | none =>
    let s2 := trackP s .parent k
    ((s2.parentData k).getD JSV.undef, s2)

/-- `proxyChild[RAW_KEY]`: the raw object behind the receiver of every set
trap in the chain is the raw child. -/
def rawOfReceiver : Tgt := Tgt.child

/-- A write `proxyChild[key] = v` through the whole prototype chain.
The child set trap reads the old value (`target[key]` — possibly through
the prototype), classifies ADD/SET by `hasOwnProperty`, and calls
`Reflect.set(rawChild, key, v, proxyChild)`.  With an own child property
this writes in place; otherwise the parent proxy's set trap runs (same
receiver), whose `Reflect.set(rawParent, key, v, proxyChild)` defines the
property on the receiver's raw object, the raw child.  Each trap then
triggers only if its `target === receiver[RAW_KEY]` and the value changed
(NaN-aware guard). -/
def setChild (s : StP) (k : String) (v : JSV) : StP :=
  let p1 := rawChildGet s k
  let oldC := p1.1
  let s1 := p1.2
  let tyC := if (s1.childData k).isSome then TTy.set else TTy.add
  if (s1.childData k).isSome then
    let s2 := { s1 with childData := fun k2 => if k2 = k then some v else s1.childData k2 }
    if decide (Tgt.child = rawOfReceiver) && JSV.valueChanged oldC v then
      triggerP s2 .child k tyC
    else s2
  else
    let oldP := (s1.parentData k).getD JSV.undef
    let tyP := if (s1.parentData k).isSome then TTy.set else TTy.add
    let s2 := { s1 with childData := fun k2 => if k2 = k then some v else s1.childData k2 }
    let s3 := if decide (Tgt.parent = rawOfReceiver) && JSV.valueChanged oldP v then
        triggerP s2 .parent k tyP
      else s2
    if decide (Tgt.child = rawOfReceiver) && JSV.valueChanged oldC v then
      triggerP s3 .child k tyC
    else s3

/-- The whole part_000 set trap with its leading read-only check: a
read-only wrapper warns and returns `true` before any of the mutable logic;
a mutable wrapper runs `setChild`.  Result: new state, the boolean the trap
returns, and the `console.warn` messages emitted. -/
def setChildR (isReadonly : Bool) (s : StP) (k : String) (v : JSV) :
    StP × Bool × List String :=
  if isReadonly then (s, true, ["set failed: readonly"])
  else (setChild s k v, true, [])

/-- The demo: raw child `{}` whose prototype is the parent proxy over
`{ bar: 1 }`; no effects registered yet. -/
def stP0 : StP :=
  { childData := fun _ => none
    parentData := fun k => if k = "bar" then some (JSV.num 1) else none
    bucket := fun _ _ => []
    iterBucket := fun _ => []
    deps := fun _ => []
    registry := fun _ => none
    active := none
    stack := []
    runCount := fun _ => 0
    triggerLog := [] }

/-- Register effect 0 reading `proxyChild.bar` (it subscribes under both
the child and the parent, since the read walks the prototype). -/
def sPreg : StP :=
  runEffP { stP0 with registry := fun e => if e = 0 then some ["bar"] else none } 0

/-- ... then write `proxyChild.bar = 2`. -/
def sPw : StP := setChild sPreg "bar" (JSV.num 2)

/-- A NaN-to-NaN write on an own child property. -/
def sPnan : StP :=
  setChild { sPreg with childData := fun k => if k = "bar" then some JSV.vnan else none }
    "bar" JSV.vnan

end Proto

namespace Comp

/-!
Model of `computed` (src/2.reactivity-system/7.computed.ts, lines 137-165)
over the demo data `{ foo, bar }`: the computed's lazy effectFn is effect 0;
its scheduler sets `dirty = true` instead of re-running; reading `.value`
re-runs the getter only when dirty and otherwise returns the cache.
-/

/-- State: the reactive data, the dependency store and the computed
effectFn's back-references, `activeEffect` and the stack, plus the
computed's cache, its dirty flag, and an observational counter of getter
executions. -/
structure StC where
  data : String → Int
  bucket : String → List Nat
  deps : Nat → List String
  active : Option Nat
  stack : List Nat
  dirty : Bool
  cache : Int
  count : Nat

/-- `track(target, key)`. -/
def trackC (s : StC) (k : String) : StC :=
  match s.active with
  | none => s
  | some e =>
    let set := s.bucket k
    let set2 := if e ∈ set then set else set ++ [e]
    { s with
      bucket := fun k2 => if k2 = k then set2 else s.bucket k2
      deps := fun e2 => if e2 = e then s.deps e ++ [k] else s.deps e2 }

/-- `cleanup(effectFn)`. -/
def cleanupC (e : Nat) (s : StC) : StC :=
  { s with
    bucket := (s.deps e).foldl
      (fun bk k => fun k2 => if k2 = k then (bk k).filter (fun x => x ≠ e) else bk k2)
      s.bucket
    deps := fun e2 => if e2 = e then [] else s.deps e2 }

/-- Reading `sum.value`: when dirty, `cacheValue = effectFn()` — cleanup,
set active, push, run the getter `() => foo + bar` (tracking both reads and
counting the execution), pop, restore — then cache and clear dirty; when
not dirty, return the cached value unchanged. -/
def readValue (s : StC) : Int × StC :=
  if s.dirty then
    let s1 := cleanupC 0 s
    let s2 := { s1 with active := some 0, stack := s1.stack ++ [0] }
    let s3 := trackC s2 "foo"
    let s4 := trackC s3 "bar"
    let v := s4.data "foo" + s4.data "bar"
    let s5 := { s4 with count := s4.count + 1 }
    let s6 := { s5 with stack := s5.stack.dropLast }
    let s7 := { s6 with active := s6.stack.getLast? }
    (v, { s7 with cache := v, dirty := false })
  else (s.cache, s)

/-- A write through the data proxy: assign, then `trigger` — the computed
effectFn carries a scheduler, so if it is subscribed to the key (and is not
the active effect) the scheduler runs and sets `dirty = true`; nothing
re-executes. -/
def writeC (s : StC) (k : String) (v : Int) : StC :=
  let s1 := { s with data := fun k2 => if k2 = k then v else s.data k2 }
  if 0 ∈ s1.bucket k ∧ s1.active ≠ some 0 then { s1 with dirty := true } else s1

/-- The fresh computed over `{ foo: 2, bar: 3 }`: dirty, never executed. -/
def stC0 : StC :=
  { data := fun k => if k = "foo" then 2 else if k = "bar" then 3 else 0
    bucket := fun _ => []
    deps := fun _ => []
    active := none
    stack := []
    dirty := true
    cache := 0
    count := 0 }

/-- First `.value` read. -/
def cRead1 : Int × StC := readValue stC0

/-- Second `.value` read, no intervening write. -/
def cRead2 : Int × StC := readValue cRead1.2

/-- Write `foo = 10`. -/
def cWrite : StC := writeC cRead2.2 "foo" 10

/-- `.value` read after the write. -/
def cRead3 : Int × StC := readValue cWrite

end Comp

namespace WatchM

/-!
Model of `watch` (src/2.reactivity-system/10.watch-complete.ts, lines
138-200) at registration time.  The underlying lazy effect is effect 0; its
scheduler is the job, but no write happens during registration, so only the
immediate-vs-seed branch is exercised.
-/

/-- A getter expression over the reactive data. -/
inductive WExpr where
  | lit (n : Int)
  | readK (k : String)
  | plus (a b : WExpr)
deriving DecidableEq

/-- The watched source: a getter function, or the reactive object itself
(deep-traversed by `traverse`). -/
inductive WSource where
  | fn (e : WExpr)
  | obj
deriving DecidableEq

/-- Values produced by the read-trigger: a number from a getter, the
traversed object itself from `traverse`, or `undefined`. -/
inductive WVal where
  | undef
  | int (n : Int)
  | objRef
deriving DecidableEq

/-- State: the reactive data and its own-key list (for `traverse`), the
dependency store and effect 0's back-references, `activeEffect`, the stack,
and a counter of the underlying computation's runs. -/
structure StW where
  data : String → Int
  keys : List String
  bucket : String → List Nat
  deps : Nat → List String
  active : Option Nat
  stack : List Nat
  runs : Nat

/-- `track(target, key)`. -/
def trackW (s : StW) (k : String) : StW :=
  match s.active with
  | none => s
  | some e =>
    let set := s.bucket k
    let set2 := if e ∈ set then set else set ++ [e]
    { s with
      bucket := fun k2 => if k2 = k then set2 else s.bucket k2
      deps := fun e2 => if e2 = e then s.deps e ++ [k] else s.deps e2 }

/-- `cleanup(effectFn)`. -/
def cleanupW (e : Nat) (s : StW) : StW :=
  { s with
    bucket := (s.deps e).foldl
      (fun bk k => fun k2 => if k2 = k then (bk k).filter (fun x => x ≠ e) else bk k2)
      s.bucket
    deps := fun e2 => if e2 = e then [] else s.deps e2 }

/-- Evaluate a getter expression, tracking every read. -/
def evalW : WExpr → StW → Int × StW
  | .lit n, s => (n, s)
  | .readK k, s => (s.data k, trackW s k)
  | .plus a b, s =>
    let p1 := evalW a s
    let p2 := evalW b p1.2
    (p1.1 + p2.1, p2.2)

/-- `traverse(source)`: read every own property to establish dependencies,
return the object. -/
def traverseW (s : StW) : WVal × StW :=
  (WVal.objRef, s.keys.foldl (fun st k => trackW st k) s)

/-- The read-trigger chosen by `watch`: the getter itself when the source
is a function, `() => traverse(source)` otherwise. -/
def getterRun (src : WSource) (s : StW) : WVal × StW :=
  match src with
  | .fn e =>
    let p := evalW e s
    (WVal.int p.1, p.2)
  | .obj => traverseW s

/-- The head of the effectFn: cleanup, set active, push, count the run. -/
def beginW (s : StW) : StW :=
  let s1 := cleanupW 0 s
  { s1 with active := some 0, stack := s1.stack ++ [0], runs := s1.runs + 1 }

/-- The lazy effectFn over the read-trigger: cleanup, set active, push,
count the run, evaluate, pop, restore; returns the value. -/
def runWatchEff (src : WSource) (s : StW) : WVal × StW :=
  let p := getterRun src (beginW s)
  let s4 := { p.2 with stack := p.2.stack.dropLast }
  (p.1, { s4 with active := s4.stack.getLast? })

/-- The observable outcome of a `watch` registration: final state, the
`(newValue, oldValue)` pairs the callback was invoked with, and the final
`oldValue`. -/
structure WResult where
  state : StW
  cbCalls : List (WVal × WVal)
  oldValue : WVal

/-- `watch(source, cb, { immediate })` at registration: both `oldValue` and
`newValue` start `undefined` and no invalidation callback is registered
yet.  If `immediate`, run the job once synchronously — `newValue :=
effectFn()`, no stored invalidation callback to call, `cb(newValue,
oldValue, onInvalidate)` (so `oldValue` is still `undefined`), then
`oldValue := newValue`.  Otherwise run the effect once to seed `oldValue`
without invoking `cb`. -/
def watchRegister (src : WSource) (immediate : Bool) (s : StW) : WResult :=
  if immediate then
    let p := runWatchEff src s
    { state := p.2, cbCalls := [(p.1, WVal.undef)], oldValue := p.1 }
  else
    let p := runWatchEff src s
    { state := p.2, cbCalls := [], oldValue := p.1 }

/-- The source's value, computed without side effects (what the getter
returns). -/
def pureEval : WExpr → (String → Int) → Int
  | .lit n, _ => n
  | .readK k, d => d k
  | .plus a b, d => pureEval a d + pureEval b d

/-- The value the read-trigger produces for a source. -/
def sourceVal (src : WSource) (d : String → Int) : WVal :=
  match src with
  | .fn e => WVal.int (pureEval e d)
  | .obj => WVal.objRef

end WatchM

namespace ThrowM

/-!
Model of the `effectFn` wrapper of src/2.reactivity-system/3.branch-and-cleanup.ts
(lines 148-163) when the user function can throw: the wrapper is
straight-line code — cleanup, assign `activeEffect`, push, `const res =
fn()`, pop, restore — with no try/finally, so a throw in `fn` propagates
before the pop and the restore run.
-/

/-- A user function: reads followed by normal completion, or a throw. -/
inductive Body7 where
  | done
  | read (k : String) (rest : Body7)
  | throwErr

/-- The runtime state the wrapper manipulates. -/
structure St7 where
  bucket : String → List Nat
  deps : Nat → List String
  active : Option Nat
  stack : List Nat

/-- `track(target, key)`. -/
def track7 (s : St7) (k : String) : St7 :=
  match s.active with
  | none => s
  | some e =>
    let set := s.bucket k
    let set2 := if e ∈ set then set else set ++ [e]
    { s with
      bucket := fun k2 => if k2 = k then set2 else s.bucket k2
      deps := fun e2 => if e2 = e then s.deps e ++ [k] else s.deps e2 }

/-- `cleanup(effectFn)`. -/
def cleanup7 (e : Nat) (s : St7) : St7 :=
  { s with
    bucket := (s.deps e).foldl
      (fun bk k => fun k2 => if k2 = k then (bk k).filter (fun x => x ≠ e) else bk k2)
      s.bucket
    deps := fun e2 => if e2 = e then [] else s.deps e2 }

/-- Run the user function; an exception carries the state at the throw. -/
def runBody7 : St7 → Body7 → Except St7 St7
  | s, .done => .ok s
  | s, .read k rest => runBody7 (track7 s k) rest
  | s, .throwErr => .error s

/-- The `effectFn` wrapper: cleanup, set `activeEffect`, push, run `fn`;
on normal return, pop and restore; on a throw, the exception propagates
with the pop and the restore skipped (there is no try/finally). -/
def runEffect7 (s : St7) (e : Nat) (b : Body7) : Except St7 St7 :=
  let s1 := cleanup7 e s
  let s2 := { s1 with active := some e, stack := s1.stack ++ [e] }
  match runBody7 s2 b with
  | .ok s3 =>
    let s4 := { s3 with stack := s3.stack.dropLast }
    .ok { s4 with active := s4.stack.getLast? }
  | .error s3 => .error s3

/-- The state in which execution continues (normally or exceptionally). -/
def stateOf : Except St7 St7 → St7
  | .ok s => s
  | .error s => s

/-- An empty runtime: no subscriptions, no active effect, empty stack. -/
def st7 : St7 :=
  { bucket := fun _ => [], deps := fun _ => [], active := none, stack := [] }

end ThrowM

namespace ArrSearch

/-!
Model of the search-method instrumentation of src/unnamed/part_004 (lines
76-95): `includes`, `indexOf` and `lastIndexOf` are overridden to search
`this` (the proxy, whose elements read back as wrappers) and then, only `if
(res === false)`, to retry on `this[RAW_KEY]` (the raw backing array).
-/

/-- Values as seen when searching a reactive array: raw object references,
their reactive wrappers (identity-stable, but never `===` the raw object),
numbers, and NaN. -/
inductive RVal where
  | raw (id : Nat)
  | wrapped (id : Nat)
  | num (n : Int)
  | vnan
deriving DecidableEq

/-- Reading an element through the reactive array's get trap: object
elements come back wrapped (the `reactiveMap` cache makes this
identity-stable); primitives come back as-is. -/
def wrapVal : RVal → RVal
  | .raw i => .wrapped i
  | v => v

/-- JS `===` on these values: reference equality for objects (a wrapper is
never `===` its raw object), value equality for numbers, NaN unequal to
everything. -/
def rEq (a b : RVal) : Bool :=
  if a = RVal.vnan ∨ b = RVal.vnan then false else decide (a = b)

/-- SameValueZero, the comparison `includes` uses: like `===` but NaN
equals NaN. -/
def rSvz (a b : RVal) : Bool :=
  if a = RVal.vnan ∧ b = RVal.vnan then true else rEq a b

/-- `Array.prototype.includes`. -/
def jsIncludes (l : List RVal) (x : RVal) : Bool := l.any (fun v => rSvz v x)

/-- `Array.prototype.indexOf` (−1 when absent). -/
def jsIndexOf (l : List RVal) (x : RVal) : Int :=
  match l.findIdx? (fun v => rEq v x) with
  | some i => (i : Int)
  | none => -1

/-- `Array.prototype.lastIndexOf` (−1 when absent). -/
def jsLastIndexOf (l : List RVal) (x : RVal) : Int :=
  match l.reverse.findIdx? (fun v => rEq v x) with
  | some i => ((l.length - 1 - i : Nat) : Int)
  | none => -1

/-- The JS value `res` held by the instrumentation wrapper: a boolean for
`includes`, a number for `indexOf`/`lastIndexOf`. -/
inductive SRes where
  | bool (b : Bool)
  | num (n : Int)
deriving DecidableEq

/-- The retry guard of the wrapper, verbatim `res === false`. -/
def isFalseRes (r : SRes) : Bool := decide (r = SRes.bool false)

/-- The instrumented `includes`: search the proxy's (wrapped) elements
first; if `res === false`, retry on the raw backing array. -/
def includesInstr (rawElems : List RVal) (x : RVal) : SRes :=
  let res := SRes.bool (jsIncludes (rawElems.map wrapVal) x)
  if isFalseRes res then SRes.bool (jsIncludes rawElems x) else res

/-- The instrumented `indexOf`: same wrapper, same `res === false` guard. -/
def indexOfInstr (rawElems : List RVal) (x : RVal) : SRes :=
  let res := SRes.num (jsIndexOf (rawElems.map wrapVal) x)
  if isFalseRes res then SRes.num (jsIndexOf rawElems x) else res

/-- The instrumented `lastIndexOf`: same wrapper, same guard. -/
def lastIndexOfInstr (rawElems : List RVal) (x : RVal) : SRes :=
  let res := SRes.num (jsLastIndexOf (rawElems.map wrapVal) x)
  if isFalseRes res then SRes.num (jsLastIndexOf rawElems x) else res

end ArrSearch

namespace EffA

theorem track_stack (s : St) (k : String) : (track s k).stack = s.stack := by
  cases h : s.active <;> simp [track, h]

theorem track_data (s : St) (k : String) : (track s k).data = s.data := by
  cases h : s.active <;> simp [track, h]

theorem track_active (s : St) (k : String) : (track s k).active = s.active := by
  cases h : s.active <;> simp [track, h]

theorem track_nextId (s : St) (k : String) : (track s k).nextId = s.nextId := by
  cases h : s.active <;> simp [track, h]

theorem track_runCount (s : St) (k : String) : (track s k).runCount = s.runCount := by
  cases h : s.active <;> simp [track, h]

theorem track_deps_other (s : St) (k : String) (x : Nat) (hx : some x ≠ s.active) :
    (track s k).deps x = s.deps x := by
  cases h : s.active with
  | none => simp [track, h]
  | some e =>
    rw [h] at hx
    have hxe : x ≠ e := fun he => hx (by rw [he])
    simp [track, h, hxe]

theorem track_bucket_other (s : St) (k k2 : String) (x : Nat) (hx : some x ≠ s.active) :
    (x ∈ (track s k).bucket k2) ↔ x ∈ s.bucket k2 := by
  cases h : s.active with
  | none => simp [track, h]
  | some e =>
    rw [h] at hx
    have hxe : x ≠ e := fun he => hx (by rw [he])
    by_cases hk : k2 = k
    · subst hk
      by_cases hm : e ∈ s.bucket k2
      · simp [track, h, hm]
      · simp [track, h, hm, hxe]
    · simp [track, h, hk]

theorem track_deps_self (s : St) (k : String) (e : Nat) (h : s.active = some e) :
    (track s k).deps e = s.deps e ++ [k] := by
  simp [track, h]

theorem track_bucket_self (s : St) (k k2 : String) (e : Nat) (h : s.active = some e) :
    (e ∈ (track s k).bucket k2) ↔ (k2 = k ∨ e ∈ s.bucket k2) := by
  by_cases hk : k2 = k
  · subst hk
    by_cases hm : e ∈ s.bucket k2
    · simp [track, h, hm]
    · simp [track, h, hm]
  · simp [track, h, hk]

theorem foldl_delFrom_self_mem (L : List String) (bk : String → List Nat) (e : Nat)
    (k : String) :
    (e ∈ (L.foldl (fun b k2 => delFrom b k2 e) bk) k) ↔ (e ∈ bk k ∧ k ∉ L) := by
  induction L generalizing bk with
  | nil => simp
  | cons k1 rest ih =>
    simp only [List.foldl_cons, ih, List.mem_cons]
    by_cases hk : k = k1
    · subst hk
      simp [delFrom]
    · simp [delFrom, hk]

theorem foldl_delFrom_other_mem (L : List String) (bk : String → List Nat) (f x : Nat)
    (hx : x ≠ f) (k : String) :
    (x ∈ (L.foldl (fun b k2 => delFrom b k2 f) bk) k) ↔ x ∈ bk k := by
  induction L generalizing bk with
  | nil => simp
  | cons k1 rest ih =>
    simp only [List.foldl_cons, ih]
    by_cases hk : k = k1
    · subst hk
      simp [delFrom, hx]
    · simp [delFrom, hk]

theorem cleanup_bucket_self (s : St) (e : Nat) (k : String) :
    (e ∈ (cleanup e s).bucket k) ↔ (e ∈ s.bucket k ∧ k ∉ s.deps e) :=
  foldl_delFrom_self_mem _ _ _ _

theorem cleanup_deps_self (s : St) (e : Nat) : (cleanup e s).deps e = [] := by
  simp [cleanup]

theorem cleanup_bucket_other (s : St) (f x : Nat) (hx : x ≠ f) (k : String) :
    (x ∈ (cleanup f s).bucket k) ↔ x ∈ s.bucket k :=
  foldl_delFrom_other_mem _ _ _ _ hx _

theorem cleanup_deps_other (s : St) (f x : Nat) (hx : x ≠ f) :
    (cleanup f s).deps x = s.deps x := by
  simp [cleanup, hx]

theorem popRestore_stack (s : St) : (popRestore s).stack = s.stack.dropLast := rfl

theorem popRestore_active (s : St) : (popRestore s).active = s.stack.dropLast.getLast? := rfl

theorem popRestore_data (s : St) : (popRestore s).data = s.data := rfl

theorem popRestore_nextId (s : St) : (popRestore s).nextId = s.nextId := rfl

theorem popRestore_bucket (s : St) : (popRestore s).bucket = s.bucket := rfl

theorem popRestore_deps (s : St) : (popRestore s).deps = s.deps := rfl

theorem popRestore_runCount (s : St) : (popRestore s).runCount = s.runCount := rfl

theorem beginRun_stack (s : St) (e : Nat) : (beginRun s e).stack = s.stack ++ [e] := rfl

theorem beginRun_active (s : St) (e : Nat) : (beginRun s e).active = some e := rfl

theorem beginRun_data (s : St) (e : Nat) : (beginRun s e).data = s.data := rfl

theorem beginRun_nextId (s : St) (e : Nat) : (beginRun s e).nextId = s.nextId := rfl

theorem beginRun_bucket (s : St) (e : Nat) : (beginRun s e).bucket = (cleanup e s).bucket := rfl

theorem beginRun_deps (s : St) (e : Nat) : (beginRun s e).deps = (cleanup e s).deps := rfl

theorem beginRun_runCount_other (s : St) (e x : Nat) (hx : x ≠ e) :
    (beginRun s e).runCount x = s.runCount x := by
  simp [beginRun, cleanup, hx]

theorem beginRun_runCount_self (s : St) (e : Nat) :
    (beginRun s e).runCount e = s.runCount e + 1 := by
  simp [beginRun, cleanup]

theorem allocNested_stack (s : St) (inner : Body) : (allocNested s inner).stack = s.stack := rfl

theorem allocNested_active (s : St) (inner : Body) :
    (allocNested s inner).active = s.active := rfl

theorem allocNested_data (s : St) (inner : Body) : (allocNested s inner).data = s.data := rfl

theorem allocNested_bucket (s : St) (inner : Body) :
    (allocNested s inner).bucket = s.bucket := rfl

theorem allocNested_deps (s : St) (inner : Body) : (allocNested s inner).deps = s.deps := rfl

theorem allocNested_runCount (s : St) (inner : Body) :
    (allocNested s inner).runCount = s.runCount := rfl

theorem allocNested_nextId (s : St) (inner : Body) :
    (allocNested s inner).nextId = s.nextId + 1 := rfl

theorem runBody_stack (b : Body) : ∀ s : St, (runBody s b).stack = s.stack := by
  induction b with
  | done => intro s; rfl
  | read k rest ih =>
    intro s
    simp only [runBody]
    rw [ih, track_stack]
  | readIf c a b2 rest ih =>
    intro s
    simp only [runBody]
    by_cases ht : truthy ((track s c).data c) = true
    · rw [if_pos ht, ih, track_stack, track_stack]
    · rw [if_neg ht, ih, track_stack, track_stack]
  | nest inner rest ih_inner ih_rest =>
    intro s
    simp only [runBody]
    rw [ih_rest, popRestore_stack, ih_inner, beginRun_stack, allocNested_stack]
    exact List.dropLast_concat

theorem runBody_data (b : Body) : ∀ s : St, (runBody s b).data = s.data := by
  induction b with
  | done => intro s; rfl
  | read k rest ih =>
    intro s
    simp only [runBody]
    rw [ih, track_data]
  | readIf c a b2 rest ih =>
    intro s
    simp only [runBody]
    by_cases ht : truthy ((track s c).data c) = true
    · rw [if_pos ht, ih, track_data, track_data]
    · rw [if_neg ht, ih, track_data, track_data]
  | nest inner rest ih_inner ih_rest =>
    intro s
    simp only [runBody]
    rw [ih_rest, popRestore_data, ih_inner, beginRun_data, allocNested_data]

theorem runBody_nextId (b : Body) : ∀ s : St, s.nextId ≤ (runBody s b).nextId := by
  induction b with
  | done => intro s; exact le_refl _
  | read k rest ih =>
    intro s
    simp only [runBody]
    have h := ih (track s k)
    rw [track_nextId] at h
    exact h
  | readIf c a b2 rest ih =>
    intro s
    simp only [runBody]
    by_cases ht : truthy ((track s c).data c) = true
    · rw [if_pos ht]
      have h := ih (track (track s c) a)
      rw [track_nextId, track_nextId] at h
      exact h
    · rw [if_neg ht]
      have h := ih (track (track s c) b2)
      rw [track_nextId, track_nextId] at h
      exact h
  | nest inner rest ih_inner ih_rest =>
    intro s
    simp only [runBody]
    have h2 := ih_inner (beginRun (allocNested s inner) s.nextId)
    rw [beginRun_nextId, allocNested_nextId] at h2
    have h3 := ih_rest (popRestore (runBody (beginRun (allocNested s inner) s.nextId) inner))
    rw [popRestore_nextId] at h3
    exact le_trans (Nat.le_succ _) (le_trans h2 h3)

theorem runBody_active (b : Body) :
    ∀ s : St, s.active = s.stack.getLast? → (runBody s b).active = s.active := by
  induction b with
  | done => intro s _; rfl
  | read k rest ih =>
    intro s h
    simp only [runBody]
    rw [ih (track s k) (by rw [track_active, track_stack]; exact h), track_active]
  | readIf c a b2 rest ih =>
    intro s h
    simp only [runBody]
    by_cases ht : truthy ((track s c).data c) = true
    · rw [if_pos ht,
        ih (track (track s c) a)
          (by rw [track_active, track_stack, track_active, track_stack]; exact h),
        track_active, track_active]
    · rw [if_neg ht,
        ih (track (track s c) b2)
          (by rw [track_active, track_stack, track_active, track_stack]; exact h),
        track_active, track_active]
  | nest inner rest ih_inner ih_rest =>
    intro s h
    simp only [runBody]
    have h5 : (popRestore (runBody (beginRun (allocNested s inner) s.nextId) inner)).active =
        (popRestore (runBody (beginRun (allocNested s inner) s.nextId) inner)).stack.getLast? := by
      rw [popRestore_active, popRestore_stack]
    rw [ih_rest _ h5, popRestore_active, runBody_stack, beginRun_stack, allocNested_stack,
      List.dropLast_concat]
    exact h.symm

/-- Running a body never changes the dependency-set membership, the `deps`
back-reference list, or the run count of any effect that is neither the
active effect nor freshly allocated during the run. -/
theorem runBody_foreign (b : Body) :
    ∀ (s : St) (x : Nat), some x ≠ s.active → x < s.nextId → s.active = s.stack.getLast? →
    ((∀ k, (x ∈ (runBody s b).bucket k ↔ x ∈ s.bucket k)) ∧
     (runBody s b).deps x = s.deps x ∧ (runBody s b).runCount x = s.runCount x) := by
  induction b with
  | done => intro s x _ _ _; exact ⟨fun _ => Iff.rfl, rfl, rfl⟩
  | read k rest ih =>
    intro s x hx hid hal
    simp only [runBody]
    obtain ⟨hb, hd, hr⟩ := ih (track s k) x
      (by rw [track_active]; exact hx)
      (by rw [track_nextId]; exact hid)
      (by rw [track_active, track_stack]; exact hal)
    refine ⟨fun k2 => ?_, ?_, ?_⟩
    · rw [hb k2, track_bucket_other s k k2 x hx]
    · rw [hd, track_deps_other s k x hx]
    · rw [hr, track_runCount]
  | readIf c a b2 rest ih =>
    intro s x hx hid hal
    simp only [runBody]
    have hx1 : some x ≠ (track s c).active := by rw [track_active]; exact hx
    by_cases ht : truthy ((track s c).data c) = true
    · rw [if_pos ht]
      obtain ⟨hb, hd, hr⟩ := ih (track (track s c) a) x
        (by rw [track_active, track_active]; exact hx)
        (by rw [track_nextId, track_nextId]; exact hid)
        (by rw [track_active, track_stack, track_active, track_stack]; exact hal)
      refine ⟨fun k2 => ?_, ?_, ?_⟩
      · rw [hb k2, track_bucket_other _ a k2 x hx1, track_bucket_other s c k2 x hx]
      · rw [hd, track_deps_other _ a x hx1, track_deps_other s c x hx]
      · rw [hr, track_runCount, track_runCount]
    · rw [if_neg ht]
      obtain ⟨hb, hd, hr⟩ := ih (track (track s c) b2) x
        (by rw [track_active, track_active]; exact hx)
        (by rw [track_nextId, track_nextId]; exact hid)
        (by rw [track_active, track_stack, track_active, track_stack]; exact hal)
      refine ⟨fun k2 => ?_, ?_, ?_⟩
      · rw [hb k2, track_bucket_other _ b2 k2 x hx1, track_bucket_other s c k2 x hx]
      · rw [hd, track_deps_other _ b2 x hx1, track_deps_other s c x hx]
      · rw [hr, track_runCount, track_runCount]
  | nest inner rest ih_inner ih_rest =>
    intro s x hx hid hal
    simp only [runBody]
    have hxf : x ≠ s.nextId := Nat.ne_of_lt hid
    have hid2 : x < (beginRun (allocNested s inner) s.nextId).nextId := by
      rw [beginRun_nextId, allocNested_nextId]
      exact lt_trans hid (Nat.lt_succ_self _)
    obtain ⟨hbI, hdI, hrI⟩ := ih_inner (beginRun (allocNested s inner) s.nextId) x
      (by rw [beginRun_active]; intro hc; exact hxf (Option.some.inj hc))
      hid2
      (by rw [beginRun_active, beginRun_stack, List.getLast?_concat])
    have hstk3 : (runBody (beginRun (allocNested s inner) s.nextId) inner).stack
        = s.stack ++ [s.nextId] := by
      rw [runBody_stack, beginRun_stack, allocNested_stack]
    obtain ⟨hbR, hdR, hrR⟩ :=
      ih_rest (popRestore (runBody (beginRun (allocNested s inner) s.nextId) inner)) x
      (by rw [popRestore_active, hstk3, List.dropLast_concat, ← hal]; exact hx)
      (by
        rw [popRestore_nextId]
        exact lt_of_lt_of_le hid2 (runBody_nextId inner _))
      (by rw [popRestore_active, popRestore_stack])
    refine ⟨fun k => ?_, ?_, ?_⟩
    · rw [hbR k, popRestore_bucket, hbI k, beginRun_bucket,
        cleanup_bucket_other _ _ x hxf, allocNested_bucket]
    · rw [hdR, popRestore_deps, hdI, beginRun_deps,
        cleanup_deps_other _ _ x hxf, allocNested_deps]
    · rw [hrR, popRestore_runCount, hrI,
        beginRun_runCount_other _ _ x hxf, allocNested_runCount]

/-- During a run of effect `e`, the reads of `e`'s own body accumulate: the
effect's dependency-set membership grows by exactly the keys read so far,
and the `deps` back-reference list records them in order; `e`'s run count is
untouched by its own body (only `beginRun` counts). -/
theorem runBody_tracks (b : Body) :
    ∀ (s : St) (e : Nat), s.active = some e → s.stack.getLast? = some e → e < s.nextId →
    ((∀ k, (e ∈ (runBody s b).bucket k ↔ (e ∈ s.bucket k ∨ k ∈ readsOf b s.data))) ∧
     (runBody s b).deps e = s.deps e ++ readsOf b s.data ∧
     (runBody s b).runCount e = s.runCount e) := by
  induction b with
  | done =>
    intro s e _ _ _
    exact ⟨fun k => by simp [runBody, readsOf], by simp [runBody, readsOf], rfl⟩
  | read k rest ih =>
    intro s e ha hs hid
    simp only [runBody]
    obtain ⟨hb, hd, hr⟩ := ih (track s k) e
      (by rw [track_active]; exact ha)
      (by rw [track_stack]; exact hs)
      (by rw [track_nextId]; exact hid)
    refine ⟨fun k2 => ?_, ?_, ?_⟩
    · rw [hb k2, track_bucket_self s k k2 e ha, track_data]
      simp only [readsOf, List.mem_cons]
      tauto
    · rw [hd, track_deps_self s k e ha, track_data, List.append_assoc]
      simp [readsOf]
    · rw [hr, track_runCount]
  | readIf c a b2 rest ih =>
    intro s e ha hs hid
    simp only [runBody]
    have ha1 : (track s c).active = some e := by rw [track_active]; exact ha
    by_cases ht : truthy ((track s c).data c) = true
    · rw [if_pos ht]
      have htd : truthy (s.data c) = true := by rw [← track_data s c]; exact ht
      obtain ⟨hb, hd, hr⟩ := ih (track (track s c) a) e
        (by rw [track_active]; exact ha1)
        (by rw [track_stack, track_stack]; exact hs)
        (by rw [track_nextId, track_nextId]; exact hid)
      refine ⟨fun k2 => ?_, ?_, ?_⟩
      · rw [hb k2, track_bucket_self _ a k2 e ha1, track_bucket_self s c k2 e ha,
          track_data, track_data]
        simp only [readsOf, htd, if_true, List.mem_cons]
        tauto
      · rw [hd, track_deps_self _ a e ha1, track_deps_self s c e ha, track_data, track_data,
          List.append_assoc, List.append_assoc]
        simp [readsOf, htd]
      · rw [hr, track_runCount, track_runCount]
    · rw [if_neg ht]
      have htd : ¬ truthy (s.data c) = true := by rw [← track_data s c]; exact ht
      obtain ⟨hb, hd, hr⟩ := ih (track (track s c) b2) e
        (by rw [track_active]; exact ha1)
        (by rw [track_stack, track_stack]; exact hs)
        (by rw [track_nextId, track_nextId]; exact hid)
      refine ⟨fun k2 => ?_, ?_, ?_⟩
      · rw [hb k2, track_bucket_self _ b2 k2 e ha1, track_bucket_self s c k2 e ha,
          track_data, track_data]
        simp only [readsOf, htd, if_false, List.mem_cons]
        tauto
      · rw [hd, track_deps_self _ b2 e ha1, track_deps_self s c e ha, track_data, track_data,
          List.append_assoc, List.append_assoc]
        simp [readsOf, htd]
      · rw [hr, track_runCount, track_runCount]
  | nest inner rest ih_inner ih_rest =>
    intro s e ha hs hid
    simp only [runBody]
    have hef : e ≠ s.nextId := Nat.ne_of_lt hid
    have hid2 : e < (beginRun (allocNested s inner) s.nextId).nextId := by
      rw [beginRun_nextId, allocNested_nextId]
      exact lt_trans hid (Nat.lt_succ_self _)
    obtain ⟨hbI, hdI, hrI⟩ := runBody_foreign inner (beginRun (allocNested s inner) s.nextId) e
      (by rw [beginRun_active]; intro hc; exact hef (Option.some.inj hc))
      hid2
      (by rw [beginRun_active, beginRun_stack, List.getLast?_concat])
    have hstk3 : (runBody (beginRun (allocNested s inner) s.nextId) inner).stack
        = s.stack ++ [s.nextId] := by
      rw [runBody_stack, beginRun_stack, allocNested_stack]
    obtain ⟨hbR, hdR, hrR⟩ :=
      ih_rest (popRestore (runBody (beginRun (allocNested s inner) s.nextId) inner)) e
      (by rw [popRestore_active, hstk3, List.dropLast_concat]; exact hs)
      (by rw [popRestore_stack, hstk3, List.dropLast_concat]; exact hs)
      (by
        rw [popRestore_nextId]
        exact lt_of_lt_of_le hid2 (runBody_nextId inner _))
    have hdata5 : (popRestore (runBody (beginRun (allocNested s inner) s.nextId) inner)).data
        = s.data := by
      rw [popRestore_data, runBody_data, beginRun_data, allocNested_data]
    refine ⟨fun k => ?_, ?_, ?_⟩
    · rw [hbR k, hdata5, popRestore_bucket, hbI k, beginRun_bucket,
        cleanup_bucket_other _ _ e hef, allocNested_bucket]
      simp [readsOf]
    · rw [hdR, hdata5, popRestore_deps, hdI, beginRun_deps,
        cleanup_deps_other _ _ e hef, allocNested_deps]
      simp [readsOf]
    · rw [hrR, popRestore_runCount, hrI,
        beginRun_runCount_other _ _ e hef, allocNested_runCount]

/-- The `effectFn` wrapper always restores the effect stack and leaves
`activeEffect` pointing at the top of the restored stack — the immediately
enclosing computation, or none when the stack is empty. -/
theorem runEffectOn_stack_active (s : St) (e : Nat) (b : Body) :
    (runEffectOn s e b).stack = s.stack ∧ (runEffectOn s e b).active = s.stack.getLast? := by
  unfold runEffectOn
  constructor
  · rw [popRestore_stack, runBody_stack, beginRun_stack]
    exact List.dropLast_concat
  · rw [popRestore_active, runBody_stack, beginRun_stack, List.dropLast_concat]

/-- After a run of effect `e` completes, `e` belongs to exactly the
dependency sets of the keys read during that run, and its back-reference
list is exactly that list of keys — provided the state is well formed
(every set containing `e` is listed in `e`'s back-references, which is what
`track` guarantees). -/
theorem runEffectOn_exact (s : St) (e : Nat) (b : Body)
    (hwf : ∀ k, e ∈ s.bucket k → k ∈ s.deps e) (hid : e < s.nextId) :
    (∀ k, (e ∈ (runEffectOn s e b).bucket k ↔ k ∈ readsOf b s.data)) ∧
    (runEffectOn s e b).deps e = readsOf b s.data := by
  unfold runEffectOn
  obtain ⟨hb, hd, _⟩ := runBody_tracks b (beginRun s e) e (beginRun_active s e)
    (by rw [beginRun_stack]; exact List.getLast?_concat _)
    (by rw [beginRun_nextId]; exact hid)
  constructor
  · intro k
    rw [popRestore_bucket, hb k, beginRun_data]
    have hnm : ¬ e ∈ (beginRun s e).bucket k := by
      rw [beginRun_bucket, cleanup_bucket_self]
      rintro ⟨hmem, hnd⟩
      exact hnd (hwf k hmem)
    simp [hnm]
  · rw [popRestore_deps, hd, beginRun_deps, cleanup_deps_self, beginRun_data]
    simp

end EffA

namespace EffB

theorem addRuns_nil (act : Option Nat) (acc : List Nat) : addRuns act acc [] = acc := rfl

theorem addRun_not_self (a : Nat) (acc : List Nat) (f : Nat) (h : a ∉ acc) :
    a ∉ addRun (some a) acc f := by
  unfold addRun
  by_cases h1 : some f = some a
  · rw [if_pos h1]
    exact h
  · rw [if_neg h1]
    by_cases h2 : f ∈ acc
    · rw [if_pos h2]
      exact h
    · rw [if_neg h2]
      intro hmem
      rcases List.mem_append.mp hmem with hm | hm
      · exact h hm
      · rw [List.mem_singleton] at hm
        exact h1 (by rw [hm])

theorem addRuns_not_self (a : Nat) (fs : List Nat) :
    ∀ acc, a ∉ acc → a ∉ addRuns (some a) acc fs := by
  induction fs with
  | nil => intro acc h; exact h
  | cons f rest ih =>
    intro acc h
    exact ih _ (addRun_not_self a acc f h)

theorem foldl_len_not_self (a : Nat) (v : Int) (dm : List (KeyB × List Nat)) :
    ∀ acc, a ∉ acc →
      a ∉ dm.foldl (fun acc2 p => if keyGe p.1 v then addRuns (some a) acc2 p.2 else acc2) acc := by
  induction dm with
  | nil => intro acc h; exact h
  | cons p rest ih =>
    intro acc h
    simp only [List.foldl_cons]
    by_cases hk : keyGe p.1 v = true
    · rw [if_pos hk]
      exact ih _ (addRuns_not_self a p.2 acc h)
    · rw [if_neg hk]
      exact ih _ h

/-- The active effect is never in the run set `trigger` assembles: every one
of the four collection blocks filters it out. -/
theorem assembleB_not_self (dm : List (KeyB × List Nat)) (isArray : Bool) (k : KeyB)
    (t : TType) (v : Int) (a : Nat) : a ∉ assembleB dm isArray k t v (some a) := by
  have h1 : a ∉ addRuns (some a) [] (lookupDm dm k) :=
    addRuns_not_self a (lookupDm dm k) [] (List.not_mem_nil a)
  have h2 : a ∉ (if isArray && decide (t = TType.add)
      then addRuns (some a) (addRuns (some a) [] (lookupDm dm k)) (lookupDm dm KeyB.len)
      else addRuns (some a) [] (lookupDm dm k)) := by
    split
    · exact addRuns_not_self a _ _ h1
    · exact h1
  have h3 : a ∉ (if isArray && decide (k = KeyB.len)
      then (dm.foldl (fun acc2 p => if keyGe p.1 v then addRuns (some a) acc2 p.2 else acc2)
        (if isArray && decide (t = TType.add)
          then addRuns (some a) (addRuns (some a) [] (lookupDm dm k)) (lookupDm dm KeyB.len)
          else addRuns (some a) [] (lookupDm dm k)))
      else (if isArray && decide (t = TType.add)
        then addRuns (some a) (addRuns (some a) [] (lookupDm dm k)) (lookupDm dm KeyB.len)
        else addRuns (some a) [] (lookupDm dm k))) := by
    split
    · exact foldl_len_not_self a v dm _ h2
    · exact h2
  have h4 : a ∉ (if decide (t = TType.add) || decide (t = TType.del)
      then addRuns (some a)
        (if isArray && decide (k = KeyB.len)
          then (dm.foldl (fun acc2 p => if keyGe p.1 v then addRuns (some a) acc2 p.2 else acc2)
            (if isArray && decide (t = TType.add)
              then addRuns (some a) (addRuns (some a) [] (lookupDm dm k)) (lookupDm dm KeyB.len)
              else addRuns (some a) [] (lookupDm dm k)))
          else (if isArray && decide (t = TType.add)
            then addRuns (some a) (addRuns (some a) [] (lookupDm dm k)) (lookupDm dm KeyB.len)
            else addRuns (some a) [] (lookupDm dm k))) (lookupDm dm KeyB.iter)
      else (if isArray && decide (k = KeyB.len)
        then (dm.foldl (fun acc2 p => if keyGe p.1 v then addRuns (some a) acc2 p.2 else acc2)
          (if isArray && decide (t = TType.add)
            then addRuns (some a) (addRuns (some a) [] (lookupDm dm k)) (lookupDm dm KeyB.len)
            else addRuns (some a) [] (lookupDm dm k)))
        else (if isArray && decide (t = TType.add)
          then addRuns (some a) (addRuns (some a) [] (lookupDm dm k)) (lookupDm dm KeyB.len)
          else addRuns (some a) [] (lookupDm dm k)))) := by
    split
    · exact addRuns_not_self a _ _ h3
    · exact h3
  exact h4

theorem addRun_mem (act : Option Nat) (acc : List Nat) (f e : Nat) :
    e ∈ addRun act acc f ↔ (e ∈ acc ∨ (some e ≠ act ∧ e = f)) := by
  unfold addRun
  by_cases h1 : some f = act
  · rw [if_pos h1]
    constructor
    · exact Or.inl
    · rintro (h | ⟨hne, rfl⟩)
      · exact h
      · exact absurd h1 hne
  · rw [if_neg h1]
    by_cases h2 : f ∈ acc
    · rw [if_pos h2]
      constructor
      · exact Or.inl
      · rintro (h | ⟨hne, rfl⟩)
        · exact h
        · exact h2
    · rw [if_neg h2]
      rw [List.mem_append, List.mem_singleton]
      constructor
      · rintro (h | rfl)
        · exact Or.inl h
        · exact Or.inr ⟨h1, rfl⟩
      · rintro (h | ⟨hne, rfl⟩)
        · exact Or.inl h
        · exact Or.inr rfl

theorem addRuns_mem (act : Option Nat) (fs : List Nat) :
    ∀ (acc : List Nat) (e : Nat),
      e ∈ addRuns act acc fs ↔ (e ∈ acc ∨ (some e ≠ act ∧ e ∈ fs)) := by
  induction fs with
  | nil => intro acc e; simp [addRuns]
  | cons f rest ih =>
    intro acc e
    rw [show addRuns act acc (f :: rest) = addRuns act (addRun act acc f) rest from rfl,
      ih, addRun_mem]
    simp only [List.mem_cons]
    tauto

theorem foldl_len_mem (act : Option Nat) (v : Int) (dm : List (KeyB × List Nat)) :
    ∀ (acc : List Nat) (e : Nat),
      e ∈ dm.foldl (fun acc2 p => if keyGe p.1 v then addRuns act acc2 p.2 else acc2) acc ↔
      (e ∈ acc ∨ (some e ≠ act ∧ ∃ p, p ∈ dm ∧ keyGe p.1 v = true ∧ e ∈ p.2)) := by
  induction dm with
  | nil => intro acc e; simp
  | cons p rest ih =>
    intro acc e
    simp only [List.foldl_cons]
    by_cases hk : keyGe p.1 v = true
    · rw [if_pos hk, ih, addRuns_mem]
      constructor
      · rintro ((h | ⟨hne, hm⟩) | ⟨hne, q, hq, hkq, hmq⟩)
        · exact Or.inl h
        · exact Or.inr ⟨hne, p, List.mem_cons_self _ _, hk, hm⟩
        · exact Or.inr ⟨hne, q, List.mem_cons_of_mem _ hq, hkq, hmq⟩
      · rintro (h | ⟨hne, q, hq, hkq, hmq⟩)
        · exact Or.inl (Or.inl h)
        · rcases List.mem_cons.mp hq with rfl | hq2
          · exact Or.inl (Or.inr ⟨hne, hmq⟩)
          · exact Or.inr ⟨hne, q, hq2, hkq, hmq⟩
    · rw [if_neg hk, ih]
      constructor
      · rintro (h | ⟨hne, q, hq, hkq, hmq⟩)
        · exact Or.inl h
        · exact Or.inr ⟨hne, q, List.mem_cons_of_mem _ hq, hkq, hmq⟩
      · rintro (h | ⟨hne, q, hq, hkq, hmq⟩)
        · exact Or.inl h
        · rcases List.mem_cons.mp hq with rfl | hq2
          · exact absurd hkq hk
          · exact Or.inr ⟨hne, q, hq2, hkq, hmq⟩

theorem lookup_of_mem_nodup (dm : List (KeyB × List Nat)) (hnd : (dm.map Prod.fst).Nodup)
    (p : KeyB × List Nat) (hp : p ∈ dm) : lookupDm dm p.1 = p.2 := by
  induction dm with
  | nil => cases hp
  | cons q rest ih =>
    rw [List.map_cons, List.nodup_cons] at hnd
    rcases List.mem_cons.mp hp with rfl | hp2
    · simp [lookupDm]
    · have hne : ¬ (q.1 = p.1) := by
        intro he
        exact hnd.1 (he ▸ List.mem_map_of_mem Prod.fst hp2)
      have hfneg : ¬ (decide (q.1 = p.1)) = true := by simpa using hne
      have hstep : lookupDm (q :: rest) p.1 = lookupDm rest p.1 := by
        simp only [lookupDm]
        rw [List.find?_cons_of_neg rest hfneg]
      rw [hstep]
      exact ih hnd.2 hp2

theorem keyGe_iff (k : KeyB) (v : Int) :
    keyGe k v = true ↔ ∃ n : Nat, k = KeyB.idx n ∧ v ≤ (n : Int) := by
  cases k <;> simp [keyGe]

/-- Membership in the run set assembled for a write of `newVal` to an
array's `length` key: exactly the direct subscribers of `length` together
with the subscribers of every index key `>= newVal`, minus the active
effect — provided the target's depsMap has no ITERATE_KEY entry (an array
target never gets one) and has unique keys (a JS `Map` invariant). -/
theorem assembleB_len_mem (dm : List (KeyB × List Nat)) (t : TType) (v : Int)
    (act : Option Nat) (e : Nat)
    (hiter : lookupDm dm KeyB.iter = []) (hnd : (dm.map Prod.fst).Nodup) :
    (e ∈ assembleB dm true KeyB.len t v act) ↔
      (some e ≠ act ∧
        (e ∈ lookupDm dm KeyB.len ∨ ∃ n : Nat, v ≤ (n : Int) ∧ e ∈ lookupDm dm (KeyB.idx n))) := by
  have hres : assembleB dm true KeyB.len t v act =
      dm.foldl (fun acc2 p => if keyGe p.1 v then addRuns act acc2 p.2 else acc2)
        (if decide (t = TType.add)
          then addRuns act (addRuns act [] (lookupDm dm KeyB.len)) (lookupDm dm KeyB.len)
          else addRuns act [] (lookupDm dm KeyB.len)) := by
    simp [assembleB, hiter, addRuns_nil]
  have hinit : ∀ e2 : Nat,
      (e2 ∈ (if decide (t = TType.add)
        then addRuns act (addRuns act [] (lookupDm dm KeyB.len)) (lookupDm dm KeyB.len)
        else addRuns act [] (lookupDm dm KeyB.len))) ↔
      (some e2 ≠ act ∧ e2 ∈ lookupDm dm KeyB.len) := by
    intro e2
    split
    · rw [addRuns_mem, addRuns_mem]
      simp
    · rw [addRuns_mem]
      simp
  have hex : (∃ p, p ∈ dm ∧ keyGe p.1 v = true ∧ e ∈ p.2) ↔
      (∃ n : Nat, v ≤ (n : Int) ∧ e ∈ lookupDm dm (KeyB.idx n)) := by
    constructor
    · rintro ⟨p, hp, hk, hm⟩
      rcases (keyGe_iff p.1 v).mp hk with ⟨n, hpn, hvn⟩
      refine ⟨n, hvn, ?_⟩
      have hl := lookup_of_mem_nodup dm hnd p hp
      rw [← hpn, hl]
      exact hm
    · rintro ⟨n, hvn, hm⟩
      cases hfind : dm.find? (fun p => decide (p.1 = KeyB.idx n)) with
      | none =>
        simp only [lookupDm, hfind] at hm
        cases hm
      | some p =>
        have hpm : p ∈ dm := List.mem_of_find?_eq_some hfind
        have hp1 : p.1 = KeyB.idx n := by
          have := List.find?_some hfind
          simpa using this
        simp only [lookupDm, hfind] at hm
        refine ⟨p, hpm, ?_, hm⟩
        rw [hp1]
        simpa [keyGe] using hvn
  rw [hres, foldl_len_mem, hinit, hex]
  tauto

end EffB

/-- The set trap's value-change guard is exactly "the values differ, with
two NaNs counting as equal": `old !== new && (old === old || new === new)`
equals the negation of NaN-aware equality. -/
theorem JSV.valueChanged_eq_not_eqNaN (a b : JSV) :
    JSV.valueChanged a b = !(JSV.eqNaN a b) := by
  cases a <;> cases b <;> simp [JSV.valueChanged, JSV.eqNaN, JSV.sEq, JSV.isNaNv]

namespace Comp

/-- Reading `.value` executes the getter exactly when dirty (the count
grows by one on a dirty read and not at all otherwise), returns the fresh
sum when dirty and the cached value otherwise, and always leaves the
computed clean. -/
theorem readValue_facts (s : StC) :
    (readValue s).2.count = s.count + (if s.dirty then 1 else 0) ∧
    (readValue s).1 = (if s.dirty then s.data "foo" + s.data "bar" else s.cache) ∧
    (readValue s).2.dirty = false := by
  by_cases h : s.dirty = true
  · simp [readValue, trackC, cleanupC, h]
  · simp [readValue, trackC, cleanupC, h]

end Comp

namespace WatchM

theorem trackW_data (s : StW) (k : String) : (trackW s k).data = s.data := by
  cases h : s.active <;> simp [trackW, h]

theorem trackW_runs (s : StW) (k : String) : (trackW s k).runs = s.runs := by
  cases h : s.active <;> simp [trackW, h]

theorem foldl_trackW_data (ks : List String) :
    ∀ s : StW, (ks.foldl (fun st k => trackW st k) s).data = s.data := by
  induction ks with
  | nil => intro s; rfl
  | cons k rest ih => intro s; exact (ih (trackW s k)).trans (trackW_data s k)

theorem foldl_trackW_runs (ks : List String) :
    ∀ s : StW, (ks.foldl (fun st k => trackW st k) s).runs = s.runs := by
  induction ks with
  | nil => intro s; rfl
  | cons k rest ih => intro s; exact (ih (trackW s k)).trans (trackW_runs s k)

theorem evalW_facts (e : WExpr) : ∀ s : StW,
    (evalW e s).1 = pureEval e s.data ∧ (evalW e s).2.data = s.data ∧
    (evalW e s).2.runs = s.runs := by
  induction e with
  | lit n => intro s; exact ⟨rfl, rfl, rfl⟩
  | readK k => intro s; exact ⟨rfl, trackW_data s k, trackW_runs s k⟩
  | plus a b iha ihb =>
    intro s
    obtain ⟨hva, hda, hra⟩ := iha s
    obtain ⟨hvb, hdb, hrb⟩ := ihb (evalW a s).2
    refine ⟨?_, ?_, ?_⟩
    · show (evalW a s).1 + (evalW b (evalW a s).2).1 = pureEval a s.data + pureEval b s.data
      rw [hva, hvb, hda]
    · show (evalW b (evalW a s).2).2.data = s.data
      rw [hdb, hda]
    · show (evalW b (evalW a s).2).2.runs = s.runs
      rw [hrb, hra]

theorem getterRun_facts (src : WSource) (s : StW) :
    (getterRun src s).1 = sourceVal src s.data ∧ (getterRun src s).2.data = s.data ∧
    (getterRun src s).2.runs = s.runs := by
  cases src with
  | fn e =>
    obtain ⟨hv, hd, hr⟩ := evalW_facts e s
    refine ⟨?_, hd, hr⟩
    show WVal.int (evalW e s).1 = WVal.int (pureEval e s.data)
    rw [hv]
  | obj =>
    exact ⟨rfl, foldl_trackW_data s.keys s, foldl_trackW_runs s.keys s⟩

theorem beginW_data (s : StW) : (beginW s).data = s.data := rfl

theorem beginW_runs (s : StW) : (beginW s).runs = s.runs + 1 := rfl

/-- The lazy computation returns the source's current value and runs
exactly once per invocation. -/
theorem runWatchEff_facts (src : WSource) (s : StW) :
    (runWatchEff src s).1 = sourceVal src s.data ∧
    (runWatchEff src s).2.runs = s.runs + 1 := by
  obtain ⟨hv, hd, hr⟩ := getterRun_facts src (beginW s)
  constructor
  · show (getterRun src (beginW s)).1 = sourceVal src s.data
    rw [hv, beginW_data]
  · show (getterRun src (beginW s)).2.runs = s.runs + 1
    rw [hr, beginW_runs]

end WatchM

/-- C1: after any run of a registered computation completes, the computation
belongs to exactly the dependency sets for the keys read during that run —
cleanup before the run removes it from every set it previously belonged to
(given the back-reference list is complete, which `track` maintains) and
empties the back-reference list, and the run re-adds exactly the keys read.
Concretely, for the computation reading `cond ? a : b` with `cond` true, the
run subscribes it to `cond` and `a` only; a subsequent write to `b` does not
re-run it (run count stays 1) while a write to `a` does (run count 2). -/
theorem claim_C1_membership_exactly_last_run :
    (∀ (s : EffA.St) (e : Nat) (b : EffA.Body),
      (∀ k, e ∈ s.bucket k → k ∈ s.deps e) → e < s.nextId →
      ((∀ k, (e ∈ (EffA.runEffectOn s e b).bucket k ↔ k ∈ EffA.readsOf b s.data)) ∧
       (EffA.runEffectOn s e b).deps e = EffA.readsOf b s.data)) ∧
    EffA.sC1reg.runCount 0 = 1 ∧
    EffA.sC1reg.bucket "cond" = [0] ∧ EffA.sC1reg.bucket "a" = [0] ∧
    EffA.sC1reg.bucket "b" = [] ∧ EffA.sC1reg.deps 0 = ["cond", "a"] ∧
    EffA.sC1afterB.runCount 0 = 1 ∧ EffA.sC1afterA.runCount 0 = 2 :=
  ⟨fun s e b hwf hid => EffA.runEffectOn_exact s e b hwf hid,
   by decide, by decide, by decide, by decide, by decide, by decide, by decide⟩

/-- Witness for C1: the general membership statement applied at the concrete
fresh state with effect 0 and the `cond ? a : b` body, its hypotheses
discharged there. -/
theorem claim_C1_membership_exactly_last_run_witness :
    (∀ k, ((0 : Nat) ∈ (EffA.runEffectOn EffA.sC1pre 0 EffA.bodyC1).bucket k ↔
      k ∈ EffA.readsOf EffA.bodyC1 EffA.sC1pre.data)) ∧
    (EffA.runEffectOn EffA.sC1pre 0 EffA.bodyC1).deps 0 =
      EffA.readsOf EffA.bodyC1 EffA.sC1pre.data :=
  claim_C1_membership_exactly_last_run.1 EffA.sC1pre 0 EffA.bodyC1
    (fun _ h => nomatch h) (by decide)

/-- C3: every run of a computation — nested runs included — restores the
effect stack on completion and leaves the active-computation pointer at the
top of the restored stack: the immediately enclosing computation, or none
when the stack is empty.  Concretely, after outer X (which registers and
runs nested Y reading `bar`, then reads `foo`) completes, the pointer is
none and the stack is empty; a write to `bar` re-runs Y alone and a write to
`foo` re-runs X alone. -/
theorem claim_C3_nested_stack_restoration :
    (∀ (s : EffA.St) (e : Nat) (b : EffA.Body),
      (EffA.runEffectOn s e b).stack = s.stack ∧
      (EffA.runEffectOn s e b).active = s.stack.getLast?) ∧
    EffA.sXY.runCount 0 = 1 ∧ EffA.sXY.runCount 1 = 1 ∧
    EffA.sXY.active = none ∧ EffA.sXY.stack = [] ∧
    EffA.sXYbar.runCount 1 = 2 ∧ EffA.sXYbar.runCount 0 = 1 ∧
    EffA.sXYfoo.runCount 0 = 2 ∧ EffA.sXYfoo.runCount 1 = 1 :=
  ⟨fun s e b => EffA.runEffectOn_stack_active s e b,
   by decide, by decide, by decide, by decide, by decide, by decide, by decide, by decide⟩

/-- C2: the run set `trigger` assembles never contains the currently active
computation, whatever the depsMap, key, trigger type, written value or
target kind — every collection block filters `fn !== activeEffect`.
Consequently the `obj.count++` effect, which reads and writes the same key
during its own execution, does not re-queue itself: it runs once at
registration, exactly once more per external write, and the recursion
terminates (the run counts agree at fuel 12 and fuel 40). -/
theorem claim_C2_trigger_excludes_active :
    (∀ (dm : List (EffB.KeyB × List Nat)) (isArray : Bool) (k : EffB.KeyB)
      (t : EffB.TType) (v : Int) (a : Nat),
      a ∉ EffB.assembleB dm isArray k t v (some a)) ∧
    EffB.sC2reg.runCount 0 = 1 ∧ EffB.sC2reg.data (.str "count") = some 2 ∧
    EffB.sC2w.runCount 0 = 2 ∧ EffB.sC2w.data (.str "count") = some 11 ∧
    EffB.sC2wBig.runCount 0 = 2 :=
  ⟨fun dm isArray k t v a => EffB.assembleB_not_self dm isArray k t v a,
   by decide, by decide, by decide, by decide, by decide⟩

/-- C5: when an array's `length` key is written, the run set `trigger`
assembles consists of the direct subscribers of `length` together with
every subscriber of every index key at or beyond the new length (minus the
active computation); concretely, for the reactive array `[1, 2, 3]`, the
computation that read index 2 re-runs when `length` is set to 1, and a
later write to index 0 alone does not re-run it. -/
theorem claim_C5_length_write_truncated_indices :
    (∀ (dm : List (EffB.KeyB × List Nat)) (t : EffB.TType) (v : Int)
      (act : Option Nat) (e : Nat),
      EffB.lookupDm dm EffB.KeyB.iter = [] → (dm.map Prod.fst).Nodup →
      ((e ∈ EffB.assembleB dm true EffB.KeyB.len t v act) ↔
        (some e ≠ act ∧
          (e ∈ EffB.lookupDm dm EffB.KeyB.len ∨
            ∃ n : Nat, v ≤ (n : Int) ∧ e ∈ EffB.lookupDm dm (EffB.KeyB.idx n))))) ∧
    EffB.sC5reg.runCount 0 = 1 ∧ EffB.sC5len.runCount 0 = 2 ∧ EffB.sC5len.len = 1 ∧
    EffB.sC5idx0.runCount 0 = 2 :=
  ⟨fun dm t v act e hiter hnd => EffB.assembleB_len_mem dm t v act e hiter hnd,
   by decide, by decide, by decide, by decide⟩

/-- Witness for C5: the assembly characterization applied at the depsMap
produced by registering the index-2 reader over `[1, 2, 3]`, for the write
`length = 1`, with both hypotheses discharged there. -/
theorem claim_C5_length_write_truncated_indices_witness :
    EffB.lookupDm EffB.sC5reg.dm EffB.KeyB.iter = [] ∧
    (EffB.sC5reg.dm.map Prod.fst).Nodup ∧
    ((0 ∈ EffB.assembleB EffB.sC5reg.dm true EffB.KeyB.len EffB.TType.add 1 none) ↔
      (some 0 ≠ none ∧
        (0 ∈ EffB.lookupDm EffB.sC5reg.dm EffB.KeyB.len ∨
          ∃ n : Nat, (1 : Int) ≤ (n : Int) ∧ 0 ∈ EffB.lookupDm EffB.sC5reg.dm (EffB.KeyB.idx n)))) :=
  ⟨by decide, by decide,
   claim_C5_length_write_truncated_indices.1 EffB.sC5reg.dm EffB.TType.add 1 none 0
     (by decide) (by decide)⟩

/-- C4: the getter of `computed` executes exactly as many times as there
are dirty-to-read transitions — reading `.value` increments the execution
count only when dirty and returns the cache untouched otherwise — and in
the demo, two reads with no intervening write execute the getter once
(both reads yield 5 over `{foo: 2, bar: 3}`), while a write to `foo`
followed by a read executes it exactly once more (yielding 13). -/
theorem claim_C4_computed_caching :
    (∀ s : Comp.StC,
      (Comp.readValue s).2.count = s.count + (if s.dirty then 1 else 0) ∧
      (Comp.readValue s).1 =
        (if s.dirty then s.data "foo" + s.data "bar" else s.cache) ∧
      (Comp.readValue s).2.dirty = false) ∧
    Comp.cRead1.1 = 5 ∧ Comp.cRead1.2.count = 1 ∧
    Comp.cRead2.1 = 5 ∧ Comp.cRead2.2.count = 1 ∧
    Comp.cWrite.dirty = true ∧
    Comp.cRead3.1 = 13 ∧ Comp.cRead3.2.count = 2 :=
  ⟨fun s => Comp.readValue_facts s,
   by decide, by decide, by decide, by decide, by decide, by decide, by decide⟩

/-- C6: a set operation through a mutable reactive wrapper notifies if and
only if the trap's target is the receiver's raw object and the value
changed NaN-aware.  The value guard equals the negation of NaN-aware
equality for all values; and in the prototype-chain demo (child `{}` whose
prototype is the parent proxy over `{bar: 1}`, with a computation
subscribed under both targets), the write `proxyChild.bar = 2` delivers
exactly one trigger — from the child trap — so the computation re-runs
exactly once (run count 1 to 2), while a NaN-to-NaN write delivers
nothing. -/
theorem claim_C6_prototype_dedup_and_nan_guard :
    (∀ a b : JSV, JSV.valueChanged a b = !(JSV.eqNaN a b)) ∧
    Proto.sPreg.runCount 0 = 1 ∧
    Proto.sPreg.bucket .child "bar" = [0] ∧ Proto.sPreg.bucket .parent "bar" = [0] ∧
    Proto.sPw.triggerLog = [(Proto.Tgt.child, "bar")] ∧
    Proto.sPw.runCount 0 = 2 ∧
    Proto.sPw.childData "bar" = some (JSV.num 2) ∧
    Proto.sPnan.triggerLog = [] :=
  ⟨fun a b => JSV.valueChanged_eq_not_eqNaN a b,
   by decide, by decide, by decide, by decide, by decide, by decide, by decide⟩

/-- C7: contrary to the claim, the `effectFn` wrapper does not restore the
active-computation stack on an abnormal exit: the pop and the restore are
written straight-line after `fn()` with no try/finally, so when the user
function throws from an empty enclosing stack, the exception propagates
with the computation still on `effectStack` and `activeEffect` still
pointing at it — while a normally completing run restores both. -/
theorem claim_C7_throw_skips_stack_restore :
    (ThrowM.runEffect7 ThrowM.st7 0 ThrowM.Body7.throwErr).isOk = false ∧
    (ThrowM.stateOf (ThrowM.runEffect7 ThrowM.st7 0 ThrowM.Body7.throwErr)).active = some 0 ∧
    (ThrowM.stateOf (ThrowM.runEffect7 ThrowM.st7 0 ThrowM.Body7.throwErr)).stack = [0] ∧
    (ThrowM.runEffect7 ThrowM.st7 0 ThrowM.Body7.done).isOk = true ∧
    (ThrowM.stateOf (ThrowM.runEffect7 ThrowM.st7 0 ThrowM.Body7.done)).active = none ∧
    (ThrowM.stateOf (ThrowM.runEffect7 ThrowM.st7 0 ThrowM.Body7.done)).stack = [] :=
  ⟨by decide, by decide, by decide, by decide, by decide, by decide⟩

/-- C8: contrary to the claim, only the overridden `includes` retries on
the raw backing array: the retry guard is `res === false`, which a number
can never satisfy, so `indexOf` and `lastIndexOf` always return their
first (proxy-side) result.  For the reactive array over `[rawObj]`, whose
elements read back as wrappers, `includes(rawObj)` is true but
`indexOf(rawObj)` and `lastIndexOf(rawObj)` return −1 even though the raw
search would find the element at index 0. -/
theorem claim_C8_only_includes_retries_raw :
    (∀ (rawElems : List ArrSearch.RVal) (x : ArrSearch.RVal),
      ArrSearch.indexOfInstr rawElems x =
        ArrSearch.SRes.num (ArrSearch.jsIndexOf (rawElems.map ArrSearch.wrapVal) x) ∧
      ArrSearch.lastIndexOfInstr rawElems x =
        ArrSearch.SRes.num (ArrSearch.jsLastIndexOf (rawElems.map ArrSearch.wrapVal) x)) ∧
    ArrSearch.includesInstr [ArrSearch.RVal.raw 0] (ArrSearch.RVal.raw 0) = .bool true ∧
    ArrSearch.jsIndexOf [ArrSearch.RVal.raw 0] (ArrSearch.RVal.raw 0) = 0 ∧
    ArrSearch.indexOfInstr [ArrSearch.RVal.raw 0] (ArrSearch.RVal.raw 0) = .num (-1) ∧
    ArrSearch.jsLastIndexOf [ArrSearch.RVal.raw 0] (ArrSearch.RVal.raw 0) = 0 ∧
    ArrSearch.lastIndexOfInstr [ArrSearch.RVal.raw 0] (ArrSearch.RVal.raw 0) = .num (-1) :=
  ⟨fun rawElems x =>
    ⟨by simp [ArrSearch.indexOfInstr, ArrSearch.isFalseRes],
     by simp [ArrSearch.lastIndexOfInstr, ArrSearch.isFalseRes]⟩,
   by decide, by decide, by decide, by decide, by decide⟩

/-- C9: a write through a read-only wrapper is a no-op that reports
success: the trap returns `true` to the caller, the state — raw data,
dependency store, run counts, trigger log — is completely unchanged, and
the rejection surfaces only as the `console.warn` diagnostic; the same
trap with the read-only flag off does perform the write. -/
theorem claim_C9_readonly_write_noop :
    (∀ (s : Proto.StP) (k : String) (v : JSV),
      Proto.setChildR true s k v = (s, true, ["set failed: readonly"])) ∧
    (Proto.setChildR false Proto.sPreg "bar" (JSV.num 2)).1.childData "bar" =
      some (JSV.num 2) :=
  ⟨fun _ _ _ => rfl, by decide⟩

/-- C10: with `immediate` set, `watch` invokes the callback exactly once,
synchronously at registration, with `oldValue = undefined` and `newValue`
the source's current value, running the underlying lazy computation once;
without `immediate`, the callback is not invoked at registration and the
computation still runs exactly once, only to seed `oldValue` with the
source's current value — for every source (getter expression or traversed
object) and every starting state. -/
theorem claim_C10_watch_immediate_registration :
    ∀ (src : WatchM.WSource) (s : WatchM.StW),
      (WatchM.watchRegister src true s).cbCalls =
        [(WatchM.sourceVal src s.data, WatchM.WVal.undef)] ∧
      (WatchM.watchRegister src true s).oldValue = WatchM.sourceVal src s.data ∧
      (WatchM.watchRegister src true s).state.runs = s.runs + 1 ∧
      (WatchM.watchRegister src false s).cbCalls = [] ∧
      (WatchM.watchRegister src false s).oldValue = WatchM.sourceVal src s.data ∧
      (WatchM.watchRegister src false s).state.runs = s.runs + 1 := by
  intro src s
  obtain ⟨hv, hr⟩ := WatchM.runWatchEff_facts src s
  refine ⟨?_, ?_, ?_, rfl, ?_, ?_⟩
  · show [((WatchM.runWatchEff src s).1, WatchM.WVal.undef)] = _
    rw [hv]
  · show (WatchM.runWatchEff src s).1 = _
    exact hv
  · show (WatchM.runWatchEff src s).2.runs = _
    exact hr
  · show (WatchM.runWatchEff src s).1 = _
    exact hv
  · show (WatchM.runWatchEff src s).2.runs = _
    exact hr
